import Mathlib

/-!
Verification of the stock-friend compliance library.

Shallow embedding of the symbol-normalization service, the compliance
orchestration service, the token-bucket rate limiter and the cache
manager, translated from the Python sources under `src/stock_friend/`.

Python dictionaries are modelled as association lists with insertion
order and in-place overwrite (`dictInsert`); `Optional[T]` is `Option T`;
`datetime.now()` is modelled by threading an explicit clock value into
every constructor that stores a timestamp; float token arithmetic in the
rate limiter is modelled over `ℚ`.
-/

namespace StockFriend

/-! ### Character-level string primitives

Lean core's `String.trim`, `String.toUpper`, `String.endsWith` are
implemented with `Substring` loops that the kernel cannot reduce, so the
Python string operations are modelled structurally on `String.data`. -/

/-- Characters removed by Python `str.strip()` (ASCII whitespace). -/
def isStripChar (c : Char) : Bool :=
  c = ' ' || c = '\t' || c = '\n' || c = '\r' || c = '\x0b' || c = '\x0c'

/-- Python `str.strip()`. -/
def pyStrip (s : String) : String :=
  ⟨((s.data.dropWhile isStripChar).reverse.dropWhile isStripChar).reverse⟩

/-- ASCII upper-casing of one character, as Python `str.upper()` acts on
the ticker alphabet. -/
def upperChar (c : Char) : Char :=
  if 'a' ≤ c && c ≤ 'z' then Char.ofNat (c.toNat - 32) else c

/-- Python `str.upper()`. -/
def pyUpper (s : String) : String :=
  ⟨s.data.map upperChar⟩

/-- Python `str.endswith(suffix)`. -/
def pyEndsWith (s suffix : String) : Bool :=
  suffix.data.isSuffixOf s.data

/-- Python `len(s)`. -/
def pyLength (s : String) : Nat :=
  s.data.length

/-- Python `s[: -n]` for `0 < n ≤ len(s)`: drop the last `n` characters. -/
def pyDropRight (s : String) (n : Nat) : String :=
  ⟨(s.data.reverse.drop n).reverse⟩

/-- Python `needle in haystack` substring containment. -/
def pyContains (haystack needle : String) : Bool :=
  (List.range (haystack.data.length + 1)).any
    (fun i => needle.data.isPrefixOf (haystack.data.drop i))

/-- Python dict as insertion-ordered association list: setting an existing
key overwrites in place, a new key is appended at the end. -/
def dictInsert {α : Type} : List (String × α) → String → α → List (String × α)
  | [], k, v => [(k, v)]
  | (k', v') :: rest, k, v =>
      if k' = k then (k', v) :: rest else (k', v') :: dictInsert rest k v

/-- Python `d.get(k)` / `d[k]` lookup on the association-list model. -/
def alGet {α : Type} (m : List (String × α)) (k : String) : Option α :=
  (m.find? (fun p => p.1 == k)).map (fun p => p.2)

/-- Python truthiness of an `Optional[str]`: `None` and `""` are falsy. -/
def pyTruthy : Option String → Bool
  | none => false
  | some s => !(s == "")

/-! ## models/symbol.py -/

/-- Embedding of `SymbolConfidence` enum (models/symbol.py). -/
inductive SymbolConfidence
  | HIGH
  | MEDIUM
  | LOW
deriving DecidableEq, Repr

/-- Embedding of `MarketRegion` enum (models/symbol.py). -/
inductive MarketRegion
  | US
  | EU
  | UK
  | ASIA
  | OTHER
deriving DecidableEq, Repr

/-- Embedding of `ExchangeMapping` frozen dataclass (models/symbol.py). -/
structure ExchangeMapping where
  yfinance_suffix : String
  bloomberg_code : String
  exchange_name : String
  market_region : MarketRegion
  country_code : String
deriving DecidableEq, Repr

/-- Embedding of `NormalizedSymbol` frozen dataclass (models/symbol.py).  The
`timestamp` field defaults to `datetime.now()` in Python; here the clock
reading at construction time is passed in explicitly as a `Nat`. -/
structure NormalizedSymbol where
  base_symbol : String
  original_ticker : String
  exchange_code : Option String
  market_region : MarketRegion
  confidence : SymbolConfidence
  transformation_notes : List String
  timestamp : Nat
  source_gateway : String
deriving DecidableEq, Repr

/-- All fields of a `NormalizedSymbol` except the construction timestamp. -/
def NormalizedSymbol.core (s : NormalizedSymbol) :
    String × String × Option String × MarketRegion × SymbolConfidence × List String × String :=
  (s.base_symbol, s.original_ticker, s.exchange_code, s.market_region,
   s.confidence, s.transformation_notes, s.source_gateway)

/-! ## services/symbol_normalization_service.py -/

/-- Embedding of `SymbolNormalizationService.EXCHANGE_MAPPINGS`, in source order. -/
def EXCHANGE_MAPPINGS : List ExchangeMapping :=
  [ ⟨".DE", "XETR", "Deutsche Börse Xetra", .EU, "DE"⟩,
    ⟨".F", "XFRA", "Frankfurt Stock Exchange", .EU, "DE"⟩,
    ⟨".BE", "XBER", "Berlin Stock Exchange", .EU, "DE"⟩,
    ⟨".MU", "XMUN", "Munich Stock Exchange", .EU, "DE"⟩,
    ⟨".DU", "XDUS", "Düsseldorf Stock Exchange", .EU, "DE"⟩,
    ⟨".HM", "XHAM", "Hamburg Stock Exchange", .EU, "DE"⟩,
    ⟨".HA", "XHAN", "Hanover Stock Exchange", .EU, "DE"⟩,
    ⟨".SG", "XSTU", "Stuttgart Stock Exchange", .EU, "DE"⟩,
    ⟨".L", "XLON", "London Stock Exchange", .UK, "GB"⟩,
    ⟨".PA", "XPAR", "Euronext Paris", .EU, "FR"⟩,
    ⟨".AS", "XAMS", "Euronext Amsterdam", .EU, "NL"⟩,
    ⟨".BR", "XBRU", "Euronext Brussels", .EU, "BE"⟩,
    ⟨".LS", "XLIS", "Euronext Lisbon", .EU, "PT"⟩,
    ⟨".MI", "XMIL", "Borsa Italiana (Milan)", .EU, "IT"⟩,
    ⟨".SW", "XSWX", "SIX Swiss Exchange", .EU, "CH"⟩,
    ⟨".ST", "XSTO", "Nasdaq Stockholm", .EU, "SE"⟩,
    ⟨".CO", "XCSE", "Nasdaq Copenhagen", .EU, "DK"⟩,
    ⟨".HE", "XHEL", "Nasdaq Helsinki", .EU, "FI"⟩,
    ⟨".OL", "XOSL", "Oslo Stock Exchange", .EU, "NO"⟩,
    ⟨".MC", "XMAD", "Bolsa de Madrid", .EU, "ES"⟩,
    ⟨".VI", "XWBO", "Vienna Stock Exchange", .EU, "AT"⟩,
    ⟨".HK", "XHKG", "Hong Kong Stock Exchange", .ASIA, "HK"⟩,
    ⟨".T", "XTKS", "Tokyo Stock Exchange", .ASIA, "JP"⟩,
    ⟨".KS", "XKRX", "Korea Stock Exchange", .ASIA, "KR"⟩,
    ⟨".SS", "XSHG", "Shanghai Stock Exchange", .ASIA, "CN"⟩,
    ⟨".SZ", "XSHE", "Shenzhen Stock Exchange", .ASIA, "CN"⟩,
    ⟨".AX", "XASX", "Australian Securities Exchange", .OTHER, "AU"⟩,
    ⟨".TO", "XTSE", "Toronto Stock Exchange", .OTHER, "CA"⟩,
    ⟨".V", "XTSX", "TSX Venture Exchange", .OTHER, "CA"⟩ ]

/-- Embedding of `US_EXCHANGE_CODES` dict, in source order. -/
def US_EXCHANGE_CODES : List (String × String) :=
  [("NASDAQ", "XNGS"), ("NYSE", "XNYS"), ("AMEX", "XASE"),
   ("NYQ", "XNYS"), ("NMS", "XNGS")]

/-- Embedding of `PRESERVE_SUFFIXES` (a Python set, written here in source order; no
ticker can end with two distinct members, so iteration order is
irrelevant to the result of the membership scan). -/
def PRESERVE_SUFFIXES : List String :=
  [".A", ".B", ".C", ".D", "-A", "-B", "-C", "-D", ".PR",
   ".U", ".UN", ".W", ".WS", ".R", ".RT"]

/-- Keys of `self._suffix_map` (built from `EXCHANGE_MAPPINGS`; all
yfinance suffixes are distinct, so the dict keeps source order). -/
def suffixKeys : List String := EXCHANGE_MAPPINGS.map (fun m => m.yfinance_suffix)

/-- Embedding of `self._suffix_map[s]` lookup. -/
def suffixMapGet (s : String) : Option ExchangeMapping :=
  EXCHANGE_MAPPINGS.find? (fun m => m.yfinance_suffix == s)

/-- Stable insertion of a string into a length-descending sorted list:
`s` goes in front of the first element that is not longer than `s`.
This reproduces Python's stable `sorted(keys, key=len, reverse=True)`. -/
def insertByLenDesc (s : String) : List String → List String
  | [] => [s]
  | t :: ts => if pyLength t ≤ pyLength s then s :: t :: ts else t :: insertByLenDesc s ts

/-- Stable sort by string length, longest first
(`sorted(self._suffix_map.keys(), key=len, reverse=True)`). -/
def sortByLenDesc : List String → List String
  | [] => []
  | s :: ss => insertByLenDesc s (sortByLenDesc ss)

/-- Embedding of `SymbolNormalizationService._extract_exchange_suffix`: first known
exchange suffix (longest first) that the upper-cased ticker ends with. -/
def extract_exchange_suffix (ticker : String) : Option String :=
  let t := pyUpper ticker
  (sortByLenDesc suffixKeys).find? (fun suffix => pyEndsWith t suffix)

/-- Embedding of `SymbolNormalizationService._get_preserved_suffix`: first member of
the preserve set that the upper-cased ticker ends with. -/
def get_preserved_suffix (ticker : String) : Option String :=
  let t := pyUpper ticker
  PRESERVE_SUFFIXES.find? (fun suffix => pyEndsWith t suffix)

/-- Embedding of `SymbolNormalizationService._infer_exchange_from_code`. -/
def infer_exchange_from_code (exchange_code : String) : Option String :=
  let e := pyUpper exchange_code
  if (EXCHANGE_MAPPINGS.find? (fun m => m.bloomberg_code == e)).isSome then
    some e
  else
    match alGet US_EXCHANGE_CODES e with
    | some bloomberg => some bloomberg
    | none =>
        (EXCHANGE_MAPPINGS.find?
            (fun m => pyContains (pyUpper m.exchange_name) e)).map
          (fun m => m.bloomberg_code)

/-- Fallback mapping used to model the `KeyError` branch of
`self._suffix_map[exchange_suffix]`, which is unreachable because
`_extract_exchange_suffix` only returns keys of the map. -/
def keyErrorMapping : ExchangeMapping := ⟨"", "", "", .OTHER, ""⟩

/-- Embedding of `SymbolNormalizationService.normalize_for_compliance`
(services/symbol_normalization_service.py, lines 130-217).  `now` is the
`datetime.now()` reading at construction of the result. -/
def normalize_for_compliance (ticker : String) (exchange : Option String)
    (source_gateway : String) (now : Nat) : NormalizedSymbol :=
  let t := pyUpper (pyStrip ticker)
  match get_preserved_suffix t with
  | some preserved =>
      { base_symbol := t
        original_ticker := t
        exchange_code :=
          if pyTruthy exchange then infer_exchange_from_code (exchange.getD "") else none
        market_region := if pyTruthy exchange then .OTHER else .US
        confidence := .HIGH
        transformation_notes := ["Preserved special suffix: " ++ preserved]
        timestamp := now
        source_gateway := source_gateway }
  | none =>
      match extract_exchange_suffix t with
      | some suffix =>
          let mapping := (suffixMapGet suffix).getD keyErrorMapping
          { base_symbol := pyDropRight t (pyLength suffix)
            original_ticker := t
            exchange_code := some mapping.bloomberg_code
            market_region := mapping.market_region
            confidence := .HIGH
            transformation_notes :=
              ["Removed " ++ suffix ++ " suffix → " ++ mapping.exchange_name]
            timestamp := now
            source_gateway := source_gateway }
      | none =>
          if pyTruthy exchange then
            let e := exchange.getD ""
            match infer_exchange_from_code e with
            | some bloomberg =>
                { base_symbol := t
                  original_ticker := t
                  exchange_code := some bloomberg
                  market_region := .OTHER
                  confidence := .HIGH
                  transformation_notes := ["Mapped exchange code: " ++ e ++ " → " ++ bloomberg]
                  timestamp := now
                  source_gateway := source_gateway }
            | none =>
                { base_symbol := t
                  original_ticker := t
                  exchange_code := some e
                  market_region := .OTHER
                  confidence := .MEDIUM
                  transformation_notes := ["Unknown exchange code: " ++ e]
                  timestamp := now
                  source_gateway := source_gateway }
          else
            { base_symbol := t
              original_ticker := t
              exchange_code := none
              market_region := .US
              confidence := .HIGH
              transformation_notes := ["No suffix or exchange - assuming US market"]
              timestamp := now
              source_gateway := source_gateway }

/-- Embedding of `SymbolNormalizationService.extract_base_symbol`
(services/symbol_normalization_service.py, lines 219-247). -/
def extract_base_symbol (ticker : String) : String :=
  let t := pyUpper (pyStrip ticker)
  if (get_preserved_suffix t).isSome then
    t
  else
    match extract_exchange_suffix t with
    | some suffix => pyDropRight t (pyLength suffix)
    | none => t

/-! ## models/compliance.py and the service-level view of a stock -/

/-- Embedding of `StockData`: only the attributes that `ComplianceService` reads
(`stock.ticker`, `stock.exchange`) are modelled. -/
structure StockData where
  ticker : String
  exchange : Option String
deriving DecidableEq, Repr

/-- Embedding of `ComplianceStatus` dataclass (models/compliance.py).  Fields that the
embedded operations never read (`compliance_score`, `checked_at`, the
provider-specific ratios) are omitted.  `normalized_from` models the
attribute that `ComplianceService` attaches dynamically. -/
structure ComplianceStatus where
  ticker : String
  is_compliant : Option Bool
  reasons : List String
  source : String
  normalized_from : Option NormalizedSymbol := none
deriving DecidableEq, Repr

/-! ## services/compliance_service.py -/

/-- The `normalized_map` dict built by
`ComplianceService.check_batch_compliance` (lines 150-156): keyed by the
original ticker, so two distinct tickers sharing one base symbol keep
separate entries. -/
def normalized_map (stocks : List StockData) (now : Nat) :
    List (String × NormalizedSymbol) :=
  stocks.foldl
    (fun m stock =>
      dictInsert m stock.ticker
        (normalize_for_compliance stock.ticker stock.exchange "yfinance" now))
    []

/-- The `base_symbols` list passed to the gateway's `check_batch`
(line 164): the base symbols of the `normalized_map` values, in dict
order. -/
def batch_base_symbols (stocks : List StockData) (now : Nat) : List String :=
  (normalized_map stocks now).map (fun p => p.2.base_symbol)

/-- Fallback used to model the impossible `KeyError` on
`normalized_map[stock.ticker]`: every iterated stock's ticker was
inserted into the dict beforehand. -/
def keyErrorSymbol : NormalizedSymbol :=
  ⟨"", "", none, .US, .LOW, [], 0, ""⟩

/-- The fallback `ComplianceStatus` built at lines 182-187 when the
gateway returned no entry for a base symbol; `__post_init__` uppercases
and strips the ticker. -/
def error_status (ticker : String) : ComplianceStatus :=
  { ticker := pyStrip (pyUpper ticker)
    is_compliant := none
    reasons := ["Internal error: no compliance result"]
    source := "error" }

/-- The in-place mutations `status.normalized_from = normalized`
performed by the result-mapping loop (compliance_service.py, lines
170-178).  `ComplianceStatus` is a mutable dataclass and the loop
mutates the one object fetched from `base_statuses` by base symbol, so
every ticker sharing that base aliases the same object; writing the
updated object back into the dict under its base-symbol key models that
shared-heap mutation (the last sharer's write wins).  Key presence never
changes, so which branch each stock takes is unaffected. -/
def mutate_batch_statuses (nm : List (String × NormalizedSymbol))
    (stocks : List StockData)
    (base_statuses : List (String × ComplianceStatus)) :
    List (String × ComplianceStatus) :=
  stocks.foldl
    (fun bs stock =>
      let normalized := (alGet nm stock.ticker).getD keyErrorSymbol
      match alGet bs normalized.base_symbol with
      | some status =>
          dictInsert bs normalized.base_symbol
            { status with normalized_from := some normalized }
      | none => bs)
    base_statuses

/-- Embedding of `ComplianceService.check_batch_compliance` (lines 129-193).  The
compliance gateway is abstracted as `gw`, the function implementing its
`check_batch`; `now` is the clock for normalization timestamps.
`results[stock.ticker] = status` stores a reference to the shared dict
object, so the value a caller observes after the loop is the object's
final state; the embedding therefore first applies all the loop's
`normalized_from` mutations (`mutate_batch_statuses`) and then reads
each ticker's entry from the mutated dict.  The error fallback is a
fresh object per ticker and aliases nothing. -/
def check_batch_compliance (gw : List String → List (String × ComplianceStatus))
    (stocks : List StockData) (now : Nat) : List (String × ComplianceStatus) :=
  if stocks.isEmpty then [] else
  let nm := normalized_map stocks now
  let base_statuses := mutate_batch_statuses nm stocks (gw (batch_base_symbols stocks now))
  stocks.foldl
    (fun results stock =>
      let normalized := (alGet nm stock.ticker).getD keyErrorSymbol
      match alGet base_statuses normalized.base_symbol with
      | some status => dictInsert results stock.ticker status
      | none => dictInsert results stock.ticker (error_status stock.ticker))
    []

/-- The `ComplianceStatus` value that `results[stock.ticker]` holds once
`check_batch_compliance` returns: the final (post-mutation) state of the
shared status object stored under the stock's base symbol, or the
internal-error fallback (lines 182-187). -/
def batch_result_for (gw : List String → List (String × ComplianceStatus))
    (stocks : List StockData) (now : Nat) (stock : StockData) : ComplianceStatus :=
  let normalized := (alGet (normalized_map stocks now) stock.ticker).getD keyErrorSymbol
  match alGet (mutate_batch_statuses (normalized_map stocks now) stocks
      (gw (batch_base_symbols stocks now))) normalized.base_symbol with
  | some status => status
  | none => error_status stock.ticker

/-- The normalization that the shared status object of base symbol `b`
carries after the result-mapping loop: that of the last stock in
iteration order whose normalized base symbol (computed by `g`) is `b`,
since each such stock overwrites `normalized_from` in place and the
final write wins. -/
def last_sharer_normalization (g : StockData → NormalizedSymbol) :
    List StockData → String → Option NormalizedSymbol
  | [], _ => none
  | s :: l, b =>
      match last_sharer_normalization g l b with
      | some nrm => some nrm
      | none => if (g s).base_symbol == b then some (g s) else none

/-- The filtering loop of `ComplianceService.filter_compliant_stocks`
(lines 219-232): skip stocks without a status; `conservative` keeps only
`is_compliant is True`, otherwise anything with `is_compliant is not
False`. -/
def filter_loop (statuses : List (String × ComplianceStatus)) (conservative : Bool) :
    List StockData → List StockData
  | [] => []
  | stock :: rest =>
      match alGet statuses stock.ticker with
      | none => filter_loop statuses conservative rest
      | some status =>
          if conservative then
            if status.is_compliant = some true then
              stock :: filter_loop statuses conservative rest
            else
              filter_loop statuses conservative rest
          else
            if status.is_compliant ≠ some false then
              stock :: filter_loop statuses conservative rest
            else
              filter_loop statuses conservative rest

/-- Embedding of `ComplianceService.filter_compliant_stocks` (lines 195-251). -/
def filter_compliant_stocks (gw : List String → List (String × ComplianceStatus))
    (stocks : List StockData) (conservative : Bool) (now : Nat) : List StockData :=
  if stocks.isEmpty then [] else
  filter_loop (check_batch_compliance gw stocks now) conservative stocks

/-- The compliance result that `check_batch_compliance` assigns to one
input stock. -/
def compliance_of (gw : List String → List (String × ComplianceStatus))
    (stocks : List StockData) (now : Nat) (stock : StockData) : Option ComplianceStatus :=
  alGet (check_batch_compliance gw stocks now) stock.ticker

/-! ## infrastructure/rate_limiter.py -/

/-- Embedding of `TokenBucket` (rate_limiter.py, lines 15-72).  Python float
arithmetic on tokens is modelled over `ℚ`; `last_refill_time` is an
absolute clock reading. -/
structure TokenBucket where
  capacity : ℚ
  refill_rate : ℚ
  tokens : ℚ
  last_refill_time : ℚ
deriving DecidableEq, Repr

/-- Embedding of `TokenBucket.__init__`: full bucket, clock read at creation. -/
def TokenBucket.init (capacity refill_rate now : ℚ) : TokenBucket :=
  ⟨capacity, refill_rate, capacity, now⟩

/-- Embedding of `TokenBucket._refill` (lines 53-62) at clock reading `now`. -/
def TokenBucket.refill (b : TokenBucket) (now : ℚ) : TokenBucket :=
  let elapsed := now - b.last_refill_time
  { b with
    tokens := min b.capacity (b.tokens + elapsed * b.refill_rate)
    last_refill_time := now }

/-- Embedding of `TokenBucket.consume` (lines 37-51) at clock reading `now`. -/
def TokenBucket.consume (b : TokenBucket) (now : ℚ) : TokenBucket × Bool :=
  let b' := b.refill now
  if 1 ≤ b'.tokens then ({ b' with tokens := b'.tokens - 1 }, true) else (b', false)

/-- One observable access to a bucket, given by the time elapsed since
the previous refill: `consume` covers `acquire`/`try_acquire` attempts,
`observe` covers the refill-only access of `get_available_tokens`. -/
inductive BucketOp
  | consume (elapsed : ℚ)
  | observe (elapsed : ℚ)
deriving DecidableEq, Repr

/-- Elapsed time carried by a bucket operation. -/
def BucketOp.elapsed : BucketOp → ℚ
  | .consume e => e
  | .observe e => e

/-- Execute one bucket operation. -/
def TokenBucket.step (b : TokenBucket) : BucketOp → TokenBucket
  | .consume e => (b.consume (b.last_refill_time + e)).1
  | .observe e => b.refill (b.last_refill_time + e)

/-- Execute a sequence of bucket operations. -/
def TokenBucket.run (b : TokenBucket) (ops : List BucketOp) : TokenBucket :=
  ops.foldl TokenBucket.step b

/-- The spec's bucket invariant: `0 ≤ tokens ≤ capacity`. -/
def TokenBucket.inv (b : TokenBucket) : Prop :=
  0 ≤ b.tokens ∧ b.tokens ≤ b.capacity

instance (b : TokenBucket) : Decidable b.inv := by
  unfold TokenBucket.inv; infer_instance

/-- Embedding of `RateLimiter.buckets`: dict from resource name to bucket. -/
abbrev RateLimiter := List (String × TokenBucket)

/-- Embedding of `RateLimiter.configure` (lines 97-113): capacity `requests_per_hour`,
refill rate `requests_per_hour / 3600` per second. -/
def RateLimiter.configure (rl : RateLimiter) (api_name : String)
    (requests_per_hour : ℚ) (now : ℚ) : RateLimiter :=
  dictInsert rl api_name
    (TokenBucket.init requests_per_hour (requests_per_hour / 3600) now)

/-- Python `int()` truncation toward zero. -/
def pyInt (q : ℚ) : ℤ :=
  if q < 0 then ⌈q⌉ else ⌊q⌋

/-- The inner waiting loop of `RateLimiter.acquire`, driven by the list
of clock readings at successive `consume` attempts (the sleeping and the
timeout bookkeeping between attempts are time-driven and not modelled).
Returns whether a token was obtained before the attempts ran out. -/
def acquireLoop (rl : RateLimiter) (api_name : String) :
    List ℚ → Bool × RateLimiter
  | [] => (false, rl)
  | now :: later =>
      match alGet rl api_name with
      | none => (false, rl)
      | some bucket =>
          let (b', ok) := bucket.consume now
          let rl' := dictInsert rl api_name b'
          if ok then (true, rl') else acquireLoop rl' api_name later

/-- Embedding of `RateLimiter.acquire` (lines 115-151): raises
`ValueError("API not configured: ...")` when `api_name` has no bucket,
otherwise enters the consume-or-wait loop. -/
def RateLimiter.acquire (rl : RateLimiter) (api_name : String)
    (attempts : List ℚ) : Except String (Bool × RateLimiter) :=
  if (alGet rl api_name).isNone then
    .error ("API not configured: " ++ api_name)
  else
    .ok (acquireLoop rl api_name attempts)

/-- Embedding of `RateLimiter.try_acquire` (lines 153-170): raises the same
`ValueError` when unconfigured, otherwise one non-blocking consume. -/
def RateLimiter.try_acquire (rl : RateLimiter) (api_name : String)
    (now : ℚ) : Except String (Bool × RateLimiter) :=
  match alGet rl api_name with
  | none => .error ("API not configured: " ++ api_name)
  | some bucket =>
      let (b', ok) := bucket.consume now
      .ok (ok, dictInsert rl api_name b')

/-- Embedding of `RateLimiter.get_available_tokens` (lines 172-190).  Its docstring
says `Raises: ValueError: If API not configured`, but the body returns
`0` for an unconfigured name instead of raising. -/
def RateLimiter.get_available_tokens (rl : RateLimiter) (api_name : String)
    (now : ℚ) : Except String (ℤ × RateLimiter) :=
  match alGet rl api_name with
  | none => .ok (0, rl)
  | some bucket =>
      let b' := bucket.refill now
      .ok (pyInt b'.tokens, dictInsert rl api_name b')

/-! ## infrastructure/cache_manager.py

The underlying `diskcache.Cache` is abstracted as storage operations
returning `Except String _` (`.error` models a raised storage
exception); `CacheManager.get`/`CacheManager.set` wrap them in
`try/except Exception`. -/

/-- Embedding of `CacheManager.get` (lines 58-77): any storage exception is caught
and turned into a cache miss (`None`). -/
def CacheManager.get {V : Type} (storage_get : String → Except String (Option V))
    (key : String) : Except String (Option V) :=
  match storage_get key with
  | .ok v => .ok v
  | .error _ => .ok none

/-- Embedding of `CacheManager.set` (lines 79-93): any storage exception is caught
and the operation becomes a silent no-op on the store. -/
def CacheManager.set {V S : Type}
    (storage_set : S → String → V → ℚ → Except String S)
    (store : S) (key : String) (value : V) (ttl_seconds : ℚ) : Except String S :=
  match storage_set store key value ttl_seconds with
  | .ok store' => .ok store'
  | .error _ => .ok store

/-! ## Concrete fixtures for witnesses and counterexamples -/

/-- The two BMW listings from the spec's batch-deduplication example. -/
def bmwStocks : List StockData :=
  [⟨"BMW.DE", none⟩, ⟨"BMW.F", none⟩]

/-- A concrete gateway `check_batch` returning one verified-compliant
entry for the base symbol `"BMW"`. -/
def bmwGateway : List String → List (String × ComplianceStatus) :=
  fun _ => [("BMW", ⟨"BMW", some true, [], "zoya", none⟩)]

/-- Three stocks whose gateway statuses mix all three compliance
states. -/
def mixedStocks : List StockData :=
  [⟨"AAPL", none⟩, ⟨"BA", none⟩, ⟨"XYZ", none⟩]

/-- A concrete gateway mapping the three base symbols of `mixedStocks`
to verified-true, verified-false and unknown. -/
def mixedGateway : List String → List (String × ComplianceStatus) :=
  fun _ =>
    [("AAPL", ⟨"AAPL", some true, [], "zoya", none⟩),
     ("BA", ⟨"BA", some false, ["Non-compliant per Zoya screening"], "zoya", none⟩),
     ("XYZ", ⟨"XYZ", none, ["Not found in Zoya database"], "zoya", none⟩)]

/-- A cache storage whose reads always raise. -/
def failGet : String → Except String (Option Nat) :=
  fun _ => .error "io failure"

/-- A cache storage whose writes always raise. -/
def failSet : Nat → String → Nat → ℚ → Except String Nat :=
  fun _ _ _ _ => .error "io failure"


/-! # Supporting lemmas -/

theorem alGet_cons {α : Type} (k' : String) (v : α) (m : List (String × α)) (k : String) :
    alGet ((k', v) :: m) k = if k' = k then some v else alGet m k := by
  by_cases h : k' = k <;> simp [alGet, List.find?_cons, h]

theorem alGet_dictInsert_self {α : Type} (m : List (String × α)) (k : String) (v : α) :
    alGet (dictInsert m k v) k = some v := by
  induction m with
  | nil => simp [dictInsert, alGet, List.find?_cons]
  | cons p m ih =>
      obtain ⟨k', v'⟩ := p
      by_cases h : k' = k
      · simp [dictInsert, h, alGet, List.find?_cons]
      · rw [dictInsert]
        simp only [if_neg h]
        rw [alGet_cons, if_neg h, ih]

theorem alGet_dictInsert_ne {α : Type} (m : List (String × α)) (k : String) (v : α)
    (k' : String) (h : k ≠ k') :
    alGet (dictInsert m k v) k' = alGet m k' := by
  induction m with
  | nil =>
      rw [dictInsert, alGet_cons, if_neg h]
  | cons p m ih =>
      obtain ⟨a, w⟩ := p
      by_cases ha : a = k
      · rw [dictInsert, if_pos ha, alGet_cons, alGet_cons]
        have haK : a ≠ k' := fun hk => h (ha.symm.trans hk)
        rw [if_neg haK, if_neg haK]
      · rw [dictInsert, if_neg ha, alGet_cons, alGet_cons, ih]

theorem alGet_append {α : Type} (m₁ m₂ : List (String × α)) (k : String) :
    alGet (m₁ ++ m₂) k = ((alGet m₁ k).map some).getD (alGet m₂ k) := by
  induction m₁ with
  | nil => simp [alGet]
  | cons p m ih =>
      obtain ⟨k', v'⟩ := p
      by_cases h : k' = k
      · rw [List.cons_append, alGet_cons, if_pos h, alGet_cons, if_pos h]
        rfl
      · rw [List.cons_append, alGet_cons, if_neg h, alGet_cons, if_neg h, ih]

theorem dictInsert_of_fresh {α : Type} (m : List (String × α)) (k : String) (v : α)
    (h : alGet m k = none) : dictInsert m k v = m ++ [(k, v)] := by
  induction m with
  | nil => rfl
  | cons p m ih =>
      obtain ⟨k', v'⟩ := p
      rw [alGet_cons] at h
      by_cases hk : k' = k
      · rw [if_pos hk] at h
        exact absurd h (by simp)
      · rw [if_neg hk] at h
        rw [dictInsert, if_neg hk, List.cons_append, ih h]

theorem foldl_dictInsert_fresh {α : Type} (f : StockData → α) :
    ∀ (l : List StockData) (acc : List (String × α)),
      (∀ s ∈ l, alGet acc s.ticker = none) →
      (l.map StockData.ticker).Nodup →
      l.foldl (fun m s => dictInsert m s.ticker (f s)) acc =
        acc ++ l.map (fun s => (s.ticker, f s)) := by
  intro l
  induction l with
  | nil => intro acc _ _; simp
  | cons a l ih =>
      intro acc hacc hnd
      rw [List.foldl_cons]
      rw [List.map_cons, List.nodup_cons] at hnd
      have hfresh : alGet acc a.ticker = none := hacc a (List.mem_cons_self a l)
      rw [dictInsert_of_fresh acc a.ticker (f a) hfresh]
      have hacc' : ∀ s ∈ l, alGet (acc ++ [(a.ticker, f a)]) s.ticker = none := by
        intro s hs
        rw [alGet_append, hacc s (List.mem_cons_of_mem a hs)]
        have hne : a.ticker ≠ s.ticker := by
          intro hEq
          exact hnd.1 (hEq ▸ List.mem_map_of_mem StockData.ticker hs)
        rw [alGet_cons, if_neg hne]
        rfl
      rw [ih (acc ++ [(a.ticker, f a)]) hacc' hnd.2, List.map_cons, List.append_assoc]
      rfl

theorem alGet_map_of_mem {α : Type} (f : StockData → α) :
    ∀ (l : List StockData) (s : StockData),
      (l.map StockData.ticker).Nodup → s ∈ l →
      alGet (l.map (fun s => (s.ticker, f s))) s.ticker = some (f s) := by
  intro l
  induction l with
  | nil => intro s _ hs; exact absurd hs (List.not_mem_nil s)
  | cons a l ih =>
      intro s hnd hs
      rw [List.map_cons, List.nodup_cons] at hnd
      rw [List.map_cons, alGet_cons]
      rcases List.mem_cons.mp hs with rfl | hs'
      · rw [if_pos rfl]
      · have hne : a.ticker ≠ s.ticker := by
          intro hEq
          exact hnd.1 (hEq ▸ List.mem_map_of_mem StockData.ticker hs')
        rw [if_neg hne]
        exact ih s hnd.2 hs'

/-! ### Token bucket (infrastructure/rate_limiter.py) -/

theorem TokenBucket.refill_capacity (b : TokenBucket) (now : ℚ) :
    (b.refill now).capacity = b.capacity := rfl

theorem TokenBucket.refill_rate_eq (b : TokenBucket) (now : ℚ) :
    (b.refill now).refill_rate = b.refill_rate := rfl

theorem TokenBucket.refill_inv (b : TokenBucket) (e : ℚ)
    (hb : b.inv) (he : 0 ≤ e) (hr : 0 ≤ b.refill_rate) :
    (b.refill (b.last_refill_time + e)).inv := by
  obtain ⟨h0, h1⟩ := hb
  constructor
  · show 0 ≤ min b.capacity (b.tokens + (b.last_refill_time + e - b.last_refill_time) * b.refill_rate)
    have hcap : 0 ≤ b.capacity := le_trans h0 h1
    have : (0 : ℚ) ≤ b.tokens + (b.last_refill_time + e - b.last_refill_time) * b.refill_rate := by
      have : (0 : ℚ) ≤ (b.last_refill_time + e - b.last_refill_time) * b.refill_rate := by
        apply mul_nonneg _ hr
        linarith
      linarith
    exact le_min hcap this
  · exact min_le_left _ _

theorem TokenBucket.step_inv (b : TokenBucket) (op : BucketOp)
    (hb : b.inv) (he : 0 ≤ op.elapsed) (hr : 0 ≤ b.refill_rate) :
    (b.step op).inv := by
  cases op with
  | observe e => exact b.refill_inv e hb he hr
  | consume e =>
      have hre := b.refill_inv e hb he hr
      obtain ⟨h0, h1⟩ := hre
      rw [TokenBucket.step, TokenBucket.consume]
      by_cases h : 1 ≤ (b.refill (b.last_refill_time + e)).tokens
      · simp only [h, if_pos]
        constructor
        · show (0 : ℚ) ≤ (b.refill (b.last_refill_time + e)).tokens - 1
          linarith
        · show (b.refill (b.last_refill_time + e)).tokens - 1 ≤
            (b.refill (b.last_refill_time + e)).capacity
          linarith
      · simp only [h, if_neg, not_false_iff]
        exact ⟨h0, h1⟩

theorem TokenBucket.step_capacity (b : TokenBucket) (op : BucketOp) :
    (b.step op).capacity = b.capacity := by
  cases op with
  | observe e => rfl
  | consume e =>
      rw [TokenBucket.step, TokenBucket.consume]
      by_cases h : 1 ≤ (b.refill (b.last_refill_time + e)).tokens <;>
        simp [h, TokenBucket.refill_capacity]

theorem TokenBucket.step_rate (b : TokenBucket) (op : BucketOp) :
    (b.step op).refill_rate = b.refill_rate := by
  cases op with
  | observe e => rfl
  | consume e =>
      rw [TokenBucket.step, TokenBucket.consume]
      by_cases h : 1 ≤ (b.refill (b.last_refill_time + e)).tokens <;>
        simp [h, TokenBucket.refill_rate_eq]

theorem TokenBucket.run_inv (b : TokenBucket) (ops : List BucketOp)
    (hb : b.inv) (hops : ∀ op ∈ ops, 0 ≤ op.elapsed) (hr : 0 ≤ b.refill_rate) :
    (b.run ops).inv := by
  induction ops generalizing b with
  | nil => exact hb
  | cons op ops ih =>
      rw [TokenBucket.run, List.foldl_cons]
      exact ih (b.step op)
        (b.step_inv op hb (hops op (List.mem_cons_self op ops)) hr)
        (fun o ho => hops o (List.mem_cons_of_mem op ho))
        (by rw [TokenBucket.step_rate]; exact hr)

/-! ### Normalization field lemmas -/

theorem normalize_fields (ticker : String) (e : Option String) (g : String) (n : Nat) :
    (normalize_for_compliance ticker e g n).base_symbol = extract_base_symbol ticker ∧
    (normalize_for_compliance ticker e g n).original_ticker = pyUpper (pyStrip ticker) ∧
    (normalize_for_compliance ticker e g n).timestamp = n ∧
    (normalize_for_compliance ticker e g n).source_gateway = g := by
  simp only [normalize_for_compliance, extract_base_symbol]
  cases hp : get_preserved_suffix (pyUpper (pyStrip ticker)) with
  | some s => simp [hp]
  | none =>
      cases hx : extract_exchange_suffix (pyUpper (pyStrip ticker)) with
      | some sfx => simp [hp, hx]
      | none =>
          cases ht : pyTruthy e with
          | false => simp [hp, hx, ht]
          | true =>
              cases hi : infer_exchange_from_code (e.getD "") with
              | none => simp [hp, hx, ht, hi]
              | some bc => simp [hp, hx, ht, hi]

theorem normalize_core_clock_irrelevant (ticker : String) (e : Option String)
    (g : String) (n1 n2 : Nat) :
    (normalize_for_compliance ticker e g n1).core =
      (normalize_for_compliance ticker e g n2).core := by
  simp only [normalize_for_compliance, NormalizedSymbol.core]
  cases hp : get_preserved_suffix (pyUpper (pyStrip ticker)) with
  | some s => simp [hp]
  | none =>
      cases hx : extract_exchange_suffix (pyUpper (pyStrip ticker)) with
      | some sfx => simp [hp, hx]
      | none =>
          cases ht : pyTruthy e with
          | false => simp [hp, hx, ht]
          | true =>
              cases hi : infer_exchange_from_code (e.getD "") with
              | none => simp [hp, hx, ht, hi]
              | some bc => simp [hp, hx, ht, hi]

/-! ### Compliance service lemmas -/

theorem normalized_map_of_nodup (stocks : List StockData) (now : Nat)
    (h : (stocks.map StockData.ticker).Nodup) :
    normalized_map stocks now =
      stocks.map (fun s =>
        (s.ticker, normalize_for_compliance s.ticker s.exchange "yfinance" now)) := by
  rw [normalized_map]
  simpa using foldl_dictInsert_fresh
    (fun s => normalize_for_compliance s.ticker s.exchange "yfinance" now)
    stocks [] (fun s _ => rfl) h

theorem batch_base_symbols_of_nodup (stocks : List StockData) (now : Nat)
    (h : (stocks.map StockData.ticker).Nodup) :
    batch_base_symbols stocks now =
      stocks.map (fun s =>
        (normalize_for_compliance s.ticker s.exchange "yfinance" now).base_symbol) := by
  rw [batch_base_symbols, normalized_map_of_nodup stocks now h, List.map_map]
  rfl

theorem alGet_normalized_map (stocks : List StockData) (now : Nat) (s : StockData)
    (h : (stocks.map StockData.ticker).Nodup) (hs : s ∈ stocks) :
    alGet (normalized_map stocks now) s.ticker =
      some (normalize_for_compliance s.ticker s.exchange "yfinance" now) := by
  rw [normalized_map_of_nodup stocks now h]
  exact alGet_map_of_mem _ stocks s h hs

theorem check_batch_body_eq (gw : List String → List (String × ComplianceStatus))
    (stocks : List StockData) (now : Nat) :
    check_batch_compliance gw stocks now =
      if stocks.isEmpty then [] else
        stocks.foldl
          (fun r s => dictInsert r s.ticker (batch_result_for gw stocks now s)) [] := by
  have hfun : (fun (results : List (String × ComplianceStatus)) (stock : StockData) =>
        match alGet (mutate_batch_statuses (normalized_map stocks now) stocks
              (gw (batch_base_symbols stocks now)))
            ((alGet (normalized_map stocks now) stock.ticker).getD keyErrorSymbol).base_symbol with
        | some status => dictInsert results stock.ticker status
        | none => dictInsert results stock.ticker (error_status stock.ticker)) =
      (fun r s => dictInsert r s.ticker (batch_result_for gw stocks now s)) := by
    funext r s
    rw [batch_result_for]
    cases h : alGet (mutate_batch_statuses (normalized_map stocks now) stocks
          (gw (batch_base_symbols stocks now)))
        ((alGet (normalized_map stocks now) s.ticker).getD keyErrorSymbol).base_symbol <;>
      simp [h]
  simp only [check_batch_compliance]
  rw [hfun]

theorem check_batch_compliance_of_nodup
    (gw : List String → List (String × ComplianceStatus))
    (stocks : List StockData) (now : Nat)
    (h : (stocks.map StockData.ticker).Nodup) :
    check_batch_compliance gw stocks now =
      stocks.map (fun s => (s.ticker, batch_result_for gw stocks now s)) := by
  rw [check_batch_body_eq]
  by_cases he : stocks.isEmpty
  · rw [if_pos he]
    cases stocks with
    | nil => rfl
    | cons a l => simp at he
  · rw [if_neg he]
    simpa using foldl_dictInsert_fresh
      (batch_result_for gw stocks now) stocks [] (fun s _ => rfl) h

theorem compliance_of_of_nodup
    (gw : List String → List (String × ComplianceStatus))
    (stocks : List StockData) (now : Nat) (s : StockData)
    (h : (stocks.map StockData.ticker).Nodup) (hs : s ∈ stocks) :
    compliance_of gw stocks now s = some (batch_result_for gw stocks now s) := by
  rw [compliance_of, check_batch_compliance_of_nodup gw stocks now h]
  exact alGet_map_of_mem _ stocks s h hs

theorem last_sharer_congr (g g' : StockData → NormalizedSymbol) :
    ∀ (l : List StockData) (b : String), (∀ x ∈ l, g x = g' x) →
      last_sharer_normalization g l b = last_sharer_normalization g' l b := by
  intro l
  induction l with
  | nil => intro b _; rfl
  | cons a l ih =>
      intro b hg
      rw [last_sharer_normalization, last_sharer_normalization,
        ih b (fun x hx => hg x (List.mem_cons_of_mem a hx)),
        hg a (List.mem_cons_self a l)]

theorem last_sharer_of_mem (g : StockData → NormalizedSymbol) :
    ∀ (l : List StockData) (s : StockData), s ∈ l →
      ∃ nrm, last_sharer_normalization g l ((g s).base_symbol) = some nrm := by
  intro l
  induction l with
  | nil => intro s hs; exact absurd hs (List.not_mem_nil s)
  | cons a l ih =>
      intro s hs
      rcases List.mem_cons.mp hs with rfl | hs'
      · cases hl : last_sharer_normalization g l ((g s).base_symbol) with
        | some nrm => exact ⟨nrm, by rw [last_sharer_normalization, hl]⟩
        | none =>
            refine ⟨g s, ?_⟩
            rw [last_sharer_normalization, hl]
            simp
      · obtain ⟨nrm, hnrm⟩ := ih s hs'
        exact ⟨nrm, by rw [last_sharer_normalization, hnrm]⟩

theorem alGet_mutate_batch (nm : List (String × NormalizedSymbol)) :
    ∀ (l : List StockData) (bs : List (String × ComplianceStatus)) (b : String),
      alGet (mutate_batch_statuses nm l bs) b =
        (alGet bs b).map (fun st0 =>
          match last_sharer_normalization
              (fun s => (alGet nm s.ticker).getD keyErrorSymbol) l b with
          | some nrm => { st0 with normalized_from := some nrm }
          | none => st0) := by
  intro l
  induction l with
  | nil =>
      intro bs b
      cases hb : alGet bs b <;>
        simp [mutate_batch_statuses, last_sharer_normalization, hb]
  | cons a l ih =>
      intro bs b
      cases hsa : alGet bs ((alGet nm a.ticker).getD keyErrorSymbol).base_symbol with
      | none =>
          have hstep : mutate_batch_statuses nm (a :: l) bs =
              mutate_batch_statuses nm l bs := by
            rw [mutate_batch_statuses, mutate_batch_statuses, List.foldl_cons]
            congr 1
            simp [hsa]
          rw [hstep, ih bs b]
          by_cases hfb : ((alGet nm a.ticker).getD keyErrorSymbol).base_symbol = b
          · rw [← hfb, hsa]
            rfl
          · have hls : last_sharer_normalization
                (fun s => (alGet nm s.ticker).getD keyErrorSymbol) (a :: l) b =
                last_sharer_normalization
                  (fun s => (alGet nm s.ticker).getD keyErrorSymbol) l b := by
              rw [last_sharer_normalization]
              cases hl : last_sharer_normalization
                  (fun s => (alGet nm s.ticker).getD keyErrorSymbol) l b <;>
                simp [hfb]
            simp only [hls]
      | some st_a =>
          have hstep : mutate_batch_statuses nm (a :: l) bs =
              mutate_batch_statuses nm l
                (dictInsert bs ((alGet nm a.ticker).getD keyErrorSymbol).base_symbol
                  { st_a with normalized_from := some ((alGet nm a.ticker).getD keyErrorSymbol) }) := by
            rw [mutate_batch_statuses, mutate_batch_statuses, List.foldl_cons]
            congr 1
            simp [hsa]
          rw [hstep, ih _ b]
          by_cases hfb : ((alGet nm a.ticker).getD keyErrorSymbol).base_symbol = b
          · rw [← hfb, alGet_dictInsert_self, hsa]
            cases hl : last_sharer_normalization
                (fun s => (alGet nm s.ticker).getD keyErrorSymbol) l
                ((alGet nm a.ticker).getD keyErrorSymbol).base_symbol with
            | some nrm =>
                have hcons : last_sharer_normalization
                    (fun s => (alGet nm s.ticker).getD keyErrorSymbol) (a :: l)
                    ((alGet nm a.ticker).getD keyErrorSymbol).base_symbol = some nrm := by
                  rw [last_sharer_normalization, hl]
                simp [hl, hcons]
            | none =>
                have hcons : last_sharer_normalization
                    (fun s => (alGet nm s.ticker).getD keyErrorSymbol) (a :: l)
                    ((alGet nm a.ticker).getD keyErrorSymbol).base_symbol =
                    some ((alGet nm a.ticker).getD keyErrorSymbol) := by
                  rw [last_sharer_normalization, hl]
                  simp
                simp [hl, hcons]
          · rw [alGet_dictInsert_ne _ _ _ _ hfb]
            have hls : last_sharer_normalization
                (fun s => (alGet nm s.ticker).getD keyErrorSymbol) (a :: l) b =
                last_sharer_normalization
                  (fun s => (alGet nm s.ticker).getD keyErrorSymbol) l b := by
              rw [last_sharer_normalization]
              cases hl : last_sharer_normalization
                  (fun s => (alGet nm s.ticker).getD keyErrorSymbol) l b <;>
                simp [hfb]
            simp only [hls]

theorem batch_result_for_spec (gw : List String → List (String × ComplianceStatus))
    (stocks : List StockData) (now : Nat) (s : StockData)
    (h : (stocks.map StockData.ticker).Nodup) (hs : s ∈ stocks) :
    batch_result_for gw stocks now s =
      match alGet (gw (batch_base_symbols stocks now))
          (normalize_for_compliance s.ticker s.exchange "yfinance" now).base_symbol with
      | some st =>
          { st with normalized_from := (
              last_sharer_normalization
                (fun x => normalize_for_compliance x.ticker x.exchange "yfinance" now)
                stocks
                (normalize_for_compliance s.ticker s.exchange "yfinance" now).base_symbol) }
      | none => error_status s.ticker := by
  have hsg : ∀ x ∈ stocks,
      (fun x => (alGet (normalized_map stocks now) x.ticker).getD keyErrorSymbol) x =
      (fun x => normalize_for_compliance x.ticker x.exchange "yfinance" now) x := by
    intro x hx
    simp only [alGet_normalized_map stocks now x h hx, Option.getD_some]
  rw [batch_result_for, alGet_normalized_map stocks now s h hs, Option.getD_some,
    alGet_mutate_batch (normalized_map stocks now) stocks]
  simp only [last_sharer_congr _ _ stocks
    (normalize_for_compliance s.ticker s.exchange "yfinance" now).base_symbol hsg]
  cases hb : alGet (gw (batch_base_symbols stocks now))
      (normalize_for_compliance s.ticker s.exchange "yfinance" now).base_symbol with
  | none => simp
  | some st0 =>
      obtain ⟨nrm, hnrm⟩ := last_sharer_of_mem
        (fun x => normalize_for_compliance x.ticker x.exchange "yfinance" now) stocks s hs
      simp [hnrm]

theorem filter_loop_mem (statuses : List (String × ComplianceStatus))
    (conservative : Bool) :
    ∀ (l : List StockData) (s : StockData),
      s ∈ filter_loop statuses conservative l ↔
        s ∈ l ∧ ∃ st, alGet statuses s.ticker = some st ∧
          (if conservative then st.is_compliant = some true
           else st.is_compliant ≠ some false) := by
  intro l
  induction l with
  | nil => intro s; simp [filter_loop]
  | cons a l ih =>
      intro s
      cases ha : alGet statuses a.ticker with
      | none =>
          have hstep : filter_loop statuses conservative (a :: l) =
              filter_loop statuses conservative l := by
            rw [filter_loop, ha]
          rw [hstep, ih s]
          constructor
          · rintro ⟨hs, hP⟩
            exact ⟨List.mem_cons_of_mem a hs, hP⟩
          · rintro ⟨hs, st, hst, hcond⟩
            rcases List.mem_cons.mp hs with rfl | hs'
            · rw [ha] at hst; exact absurd hst (by simp)
            · exact ⟨hs', st, hst, hcond⟩
      | some st =>
          cases conservative with
          | true =>
              by_cases hc : st.is_compliant = some true
              · have hstep : filter_loop statuses true (a :: l) =
                    a :: filter_loop statuses true l := by
                  rw [filter_loop, ha]; simp [hc]
                rw [hstep, List.mem_cons, ih s]
                constructor
                · rintro (rfl | ⟨hs, hP⟩)
                  · exact ⟨List.mem_cons_self s l, st, ha, hc⟩
                  · exact ⟨List.mem_cons_of_mem a hs, hP⟩
                · rintro ⟨hs, st', hst', hcond⟩
                  rcases List.mem_cons.mp hs with rfl | hs'
                  · exact Or.inl rfl
                  · exact Or.inr ⟨hs', st', hst', hcond⟩
              · have hstep : filter_loop statuses true (a :: l) =
                    filter_loop statuses true l := by
                  rw [filter_loop, ha]; simp [hc]
                rw [hstep, ih s]
                constructor
                · rintro ⟨hs, hP⟩
                  exact ⟨List.mem_cons_of_mem a hs, hP⟩
                · rintro ⟨hs, st', hst', hcond⟩
                  rcases List.mem_cons.mp hs with rfl | hs'
                  · rw [ha] at hst'
                    obtain rfl := (Option.some.injEq _ _).mp hst'
                    exact absurd hcond hc
                  · exact ⟨hs', st', hst', hcond⟩
          | false =>
              by_cases hc : st.is_compliant = some false
              · have hstep : filter_loop statuses false (a :: l) =
                    filter_loop statuses false l := by
                  rw [filter_loop, ha]; simp [hc]
                rw [hstep, ih s]
                constructor
                · rintro ⟨hs, hP⟩
                  exact ⟨List.mem_cons_of_mem a hs, hP⟩
                · rintro ⟨hs, st', hst', hcond⟩
                  rcases List.mem_cons.mp hs with rfl | hs'
                  · rw [ha] at hst'
                    obtain rfl := (Option.some.injEq _ _).mp hst'
                    exact absurd hc hcond
                  · exact ⟨hs', st', hst', hcond⟩
              · have hstep : filter_loop statuses false (a :: l) =
                    a :: filter_loop statuses false l := by
                  rw [filter_loop, ha]; simp [hc]
                rw [hstep, List.mem_cons, ih s]
                constructor
                · rintro (rfl | ⟨hs, hP⟩)
                  · exact ⟨List.mem_cons_self s l, st, ha, hc⟩
                  · exact ⟨List.mem_cons_of_mem a hs, hP⟩
                · rintro ⟨hs, st', hst', hcond⟩
                  rcases List.mem_cons.mp hs with rfl | hs'
                  · exact Or.inl rfl
                  · exact Or.inr ⟨hs', st', hst', hcond⟩

/-! # Claim theorems -/

/-- C4: for every token bucket created by
`RateLimiter.configure(name, requestsPerHour)` and every subsequent
sequence of consume/refill accesses with non-negative elapsed time, the
state satisfies `0 ≤ tokens ≤ capacity` at every observation point
(quantifying over every operation sequence covers every prefix, hence
every observation point). -/
theorem C4_configured_bucket_invariant (rl : RateLimiter) (name : String)
    (requests_per_hour t0 : ℚ) (ops : List BucketOp) (b : TokenBucket)
    (hrph : 0 ≤ requests_per_hour)
    (hops : ∀ op ∈ ops, 0 ≤ op.elapsed)
    (hb : alGet (RateLimiter.configure rl name requests_per_hour t0) name = some b) :
    (b.run ops).inv := by
  rw [RateLimiter.configure, alGet_dictInsert_self, Option.some.injEq] at hb
  subst hb
  apply TokenBucket.run_inv
  · exact ⟨hrph, le_refl _⟩
  · exact hops
  · exact div_nonneg hrph (by norm_num)

/-- Witness for C4 at a concrete configuration and operation sequence. -/
theorem C4_configured_bucket_invariant_witness :
    (0 ≤ (3600 : ℚ)) ∧
    (∀ op ∈ [BucketOp.consume 0, BucketOp.consume 1, BucketOp.observe 2], 0 ≤ op.elapsed) ∧
    alGet (RateLimiter.configure [] "zoya" 3600 0) "zoya" = some (TokenBucket.init 3600 1 0) ∧
    ((TokenBucket.init 3600 1 0).run
      [BucketOp.consume 0, BucketOp.consume 1, BucketOp.observe 2]).inv := by
  have hops : ∀ op ∈ [BucketOp.consume 0, BucketOp.consume 1, BucketOp.observe 2],
      0 ≤ op.elapsed := by
    simp [List.forall_mem_cons, BucketOp.elapsed]
  have hget : alGet (RateLimiter.configure [] "zoya" 3600 0) "zoya" =
      some (TokenBucket.init 3600 1 0) := by
    rw [RateLimiter.configure, alGet_dictInsert_self]
    norm_num [TokenBucket.init]
  exact ⟨by norm_num, hops, hget,
    C4_configured_bucket_invariant [] "zoya" 3600 0
      [BucketOp.consume 0, BucketOp.consume 1, BucketOp.observe 2]
      (TokenBucket.init 3600 1 0) (by norm_num) hops hget⟩

/-- C6: from any bucket state with `0 ≤ tokens ≤ capacity`, if at least
`capacity / refillRate` seconds elapse, the next refill computation
brings the token count to exactly `capacity`. -/
theorem C6_idle_refill_fills_bucket (b : TokenBucket) (now : ℚ)
    (h0 : 0 ≤ b.tokens) (h1 : b.tokens ≤ b.capacity)
    (hr : 0 < b.refill_rate)
    (he : b.capacity / b.refill_rate ≤ now - b.last_refill_time) :
    (b.refill now).tokens = b.capacity := by
  show min b.capacity (b.tokens + (now - b.last_refill_time) * b.refill_rate) = b.capacity
  apply min_eq_left
  have hmul : b.capacity / b.refill_rate * b.refill_rate ≤
      (now - b.last_refill_time) * b.refill_rate :=
    mul_le_mul_of_nonneg_right he (le_of_lt hr)
  rw [div_mul_cancel₀ b.capacity (ne_of_gt hr)] at hmul
  linarith

/-- Witness for C6: an empty bucket with capacity 2 and rate 1 is full
again after 5 idle seconds. -/
theorem C6_idle_refill_fills_bucket_witness :
    (0 ≤ (⟨2, 1, 0, 0⟩ : TokenBucket).tokens) ∧
    ((⟨2, 1, 0, 0⟩ : TokenBucket).tokens ≤ (⟨2, 1, 0, 0⟩ : TokenBucket).capacity) ∧
    (0 < (⟨2, 1, 0, 0⟩ : TokenBucket).refill_rate) ∧
    ((⟨2, 1, 0, 0⟩ : TokenBucket).capacity / (⟨2, 1, 0, 0⟩ : TokenBucket).refill_rate ≤
      5 - (⟨2, 1, 0, 0⟩ : TokenBucket).last_refill_time) ∧
    ((⟨2, 1, 0, 0⟩ : TokenBucket).refill 5).tokens = (⟨2, 1, 0, 0⟩ : TokenBucket).capacity :=
  ⟨by norm_num, by norm_num, by norm_num, by norm_num,
    C6_idle_refill_fills_bucket ⟨2, 1, 0, 0⟩ 5
      (by norm_num) (by norm_num) (by norm_num) (by norm_num)⟩

/-- C5 (code bug): on an unconfigured resource name, `acquire` and
`try_acquire` raise `ValueError("API not configured: ...")` as the spec's
`ConfigurationError`, but `get_available_tokens` returns `0` instead of
raising — contradicting its own docstring, which promises
`Raises: ValueError: If API not configured`. -/
theorem C5_unconfigured_get_available_tokens_returns_zero :
    RateLimiter.acquire ([] : RateLimiter) "zoya" [0] =
      .error "API not configured: zoya" ∧
    RateLimiter.try_acquire ([] : RateLimiter) "zoya" 0 =
      .error "API not configured: zoya" ∧
    RateLimiter.get_available_tokens ([] : RateLimiter) "zoya" 0 = .ok (0, []) :=
  ⟨rfl, rfl, rfl⟩

/-- C8: a storage error during `CacheManager.get` or `CacheManager.set`
never propagates: `get` degrades to a cache miss and `set` to a silent
no-op on the store. -/
theorem C8_cache_errors_degrade {V S : Type}
    (storage_get : String → Except String (Option V))
    (storage_set : S → String → V → ℚ → Except String S)
    (store : S) (key key' : String) (value : V) (ttl : ℚ) (e e' : String)
    (hg : storage_get key = .error e)
    (hs : storage_set store key' value ttl = .error e') :
    CacheManager.get storage_get key = .ok none ∧
    CacheManager.set storage_set store key' value ttl = .ok store := by
  constructor
  · rw [CacheManager.get, hg]
  · rw [CacheManager.set, hs]

/-- Witness for C8 on a storage that always raises. -/
theorem C8_cache_errors_degrade_witness :
    failGet "compliance:zoya:sandbox:AAPL" = .error "io failure" ∧
    failSet 5 "compliance:zoya:sandbox:AAPL" 7 2592000 = .error "io failure" ∧
    CacheManager.get failGet "compliance:zoya:sandbox:AAPL" = .ok none ∧
    CacheManager.set failSet 5 "compliance:zoya:sandbox:AAPL" 7 2592000 = .ok 5 := by
  refine ⟨rfl, rfl, ?_⟩
  exact C8_cache_errors_degrade failGet failSet 5
    "compliance:zoya:sandbox:AAPL" "compliance:zoya:sandbox:AAPL" 7 2592000
    "io failure" "io failure" rfl rfl

/-- C2 (counterexample): an empty ticker does not raise; the code has no
validation branch and returns a normal `NormalizedSymbol` with empty
`base_symbol` — exactly what the unit test `test_empty_ticker_handled`
asserts. -/
theorem C2_empty_ticker_returns_normally :
    normalize_for_compliance "" none "yfinance" 0 =
      ⟨"", "", none, .US, .HIGH, ["No suffix or exchange - assuming US market"],
        0, "yfinance"⟩ := by decide

/-- C2 (amended): `normalize_for_compliance` never raises for any
ticker; an empty or whitespace-only ticker is not special-cased and
yields a `NormalizedSymbol` whose `base_symbol` and `original_ticker`
are the empty string. -/
theorem C2_whitespace_ticker_empty_base (ticker : String) (e : Option String)
    (g : String) (n : Nat) (h : pyStrip ticker = "") :
    (normalize_for_compliance ticker e g n).base_symbol = "" ∧
    (normalize_for_compliance ticker e g n).original_ticker = "" := by
  obtain ⟨hb, ho, -, -⟩ := normalize_fields ticker e g n
  refine ⟨?_, ?_⟩
  · rw [hb, extract_base_symbol, h]
    decide
  · rw [ho, h]
    decide

/-- Witness for C2 (amended) at the whitespace-only ticker of the unit
test `test_whitespace_ticker_handled`. -/
theorem C2_whitespace_ticker_empty_base_witness :
    pyStrip "   " = "" ∧
    (normalize_for_compliance "   " none "yfinance" 0).base_symbol = "" ∧
    (normalize_for_compliance "   " none "yfinance" 0).original_ticker = "" := by
  refine ⟨by decide, ?_⟩
  exact C2_whitespace_ticker_empty_base "   " none "yfinance" 0 (by decide)

/-- C7: whenever the trimmed, upper-cased ticker ends with a suffix in
the `PRESERVE_SUFFIXES` set, `normalize_for_compliance` returns that
form unchanged as `base_symbol`, with `HIGH` confidence and the
preserved-suffix note.  The hypothesis constrains only the preserve-set
scan — nothing is assumed about the exchange-suffix scan — so the
preserve check takes precedence over exchange-suffix stripping. -/
theorem C7_preserved_suffix_kept (ticker : String) (e : Option String)
    (g : String) (n : Nat) (s : String)
    (h : get_preserved_suffix (pyUpper (pyStrip ticker)) = some s) :
    (normalize_for_compliance ticker e g n).base_symbol = pyUpper (pyStrip ticker) ∧
    (normalize_for_compliance ticker e g n).confidence = .HIGH ∧
    (normalize_for_compliance ticker e g n).transformation_notes =
      ["Preserved special suffix: " ++ s] := by
  simp [normalize_for_compliance, h]

/-- Witness for C7 at the spec's example `normalize("BRK.A")`. -/
theorem C7_preserved_suffix_kept_witness :
    get_preserved_suffix (pyUpper (pyStrip "BRK.A")) = some ".A" ∧
    (normalize_for_compliance "BRK.A" none "yfinance" 0).base_symbol = "BRK.A" ∧
    (normalize_for_compliance "BRK.A" none "yfinance" 0).confidence = .HIGH ∧
    (normalize_for_compliance "BRK.A" none "yfinance" 0).transformation_notes =
      ["Preserved special suffix: .A"] := by
  refine ⟨by decide, ?_⟩
  have := C7_preserved_suffix_kept "BRK.A" none "yfinance" 0 ".A" (by decide)
  simpa using this

/-- C9 (counterexample): two calls with identical arguments but distinct
clock readings produce `NormalizedSymbol` values that are not equal,
because the `timestamp` field records `datetime.now()` at construction;
dataclass equality compares it. -/
theorem C9_determinism_counterexample :
    normalize_for_compliance "AAPL" none "yfinance" 0 ≠
      normalize_for_compliance "AAPL" none "yfinance" 1 := by decide

/-- C9 (amended): `normalize_for_compliance` is a pure function of its
arguments and the clock; all fields except the construction `timestamp`
are identical across calls with equal arguments, and the only dependence
on the call instant is that `timestamp` records it. -/
theorem C9_deterministic_modulo_timestamp (ticker : String) (e : Option String)
    (g : String) (n1 n2 : Nat) :
    (normalize_for_compliance ticker e g n1).core =
      (normalize_for_compliance ticker e g n2).core ∧
    (normalize_for_compliance ticker e g n1).timestamp = n1 :=
  ⟨normalize_core_clock_irrelevant ticker e g n1 n2,
    (normalize_fields ticker e g n1).2.2.1⟩

/-- C10: for every ticker, the standalone `extract_base_symbol` agrees
with the `base_symbol` of `normalize_for_compliance(ticker, None)`. -/
theorem C10_extract_base_symbol_agrees (ticker : String) (n : Nat) :
    extract_base_symbol ticker =
      (normalize_for_compliance ticker none "yfinance" n).base_symbol :=
  ((normalize_fields ticker none "yfinance" n).1).symm

/-- C3: `filter_compliant_stocks` with `conservative = true` returns
exactly the input stocks whose batch-check status is verified `true`
(never one whose status is `false` or unknown), and with
`conservative = false` exactly those whose status is not verified
`false` (so unknown is additionally retained). -/
theorem C3_filter_semantics (gw : List String → List (String × ComplianceStatus))
    (stocks : List StockData) (now : Nat) (s : StockData) :
    (s ∈ filter_compliant_stocks gw stocks true now ↔
      s ∈ stocks ∧ ∃ st, compliance_of gw stocks now s = some st ∧
        st.is_compliant = some true) ∧
    (s ∈ filter_compliant_stocks gw stocks false now ↔
      s ∈ stocks ∧ ∃ st, compliance_of gw stocks now s = some st ∧
        st.is_compliant ≠ some false) := by
  have hmain : ∀ c : Bool, s ∈ filter_compliant_stocks gw stocks c now ↔
      s ∈ stocks ∧ ∃ st,
        alGet (check_batch_compliance gw stocks now) s.ticker = some st ∧
        (if c then st.is_compliant = some true
         else st.is_compliant ≠ some false) := by
    intro c
    rw [filter_compliant_stocks]
    by_cases he : stocks.isEmpty
    · rw [if_pos he]
      have hnil : stocks = [] := by
        cases stocks with
        | nil => rfl
        | cons a l => simp at he
      subst hnil
      simp
    · rw [if_neg he]
      exact filter_loop_mem (check_batch_compliance gw stocks now) c stocks s
  constructor
  · simpa [compliance_of] using hmain true
  · simpa [compliance_of] using hmain false

/-- C1 (counterexample): for the spec's example input
`["BMW.DE", "BMW.F"]` the list handed to the gateway's `check_batch`
contains `"BMW"` twice, not once — `check_batch_compliance` keys its
normalization dict by original ticker, so two tickers sharing one base
symbol are not deduplicated. -/
theorem C1_base_symbols_not_deduplicated :
    batch_base_symbols bmwStocks 0 = ["BMW", "BMW"] ∧
    (batch_base_symbols bmwStocks 0).count "BMW" = 2 := by
  constructor
  · decide
  · decide

/-- C1 (amended): `check_batch_compliance` deduplicates by original
ticker, not by base symbol: for distinct input tickers, one batch call
is issued whose symbol list has one entry per input stock (its
normalized base symbol, so a shared base appears once per listing), and
each original ticker receives the one status object stored under its
base symbol.  That object is shared by every ticker with the same base
symbol, and because the loop mutates its `normalized_from` in place,
the audit it finally carries is the normalization of the **last** input
stock with that base symbol, not necessarily the ticker's own (or the
internal-error fallback when the gateway returned no entry). -/
theorem C1_batch_keyed_by_original_ticker
    (gw : List String → List (String × ComplianceStatus))
    (stocks : List StockData) (now : Nat)
    (h : (stocks.map StockData.ticker).Nodup) :
    batch_base_symbols stocks now =
      stocks.map (fun s =>
        (normalize_for_compliance s.ticker s.exchange "yfinance" now).base_symbol) ∧
    ∀ s ∈ stocks,
      compliance_of gw stocks now s =
        some (match alGet (gw (batch_base_symbols stocks now))
            (normalize_for_compliance s.ticker s.exchange "yfinance" now).base_symbol with
          | some st =>
              { st with normalized_from := (
                  last_sharer_normalization
                    (fun x => normalize_for_compliance x.ticker x.exchange "yfinance" now)
                    stocks
                    (normalize_for_compliance s.ticker s.exchange "yfinance" now).base_symbol) }
          | none => error_status s.ticker) := by
  refine ⟨batch_base_symbols_of_nodup stocks now h, ?_⟩
  intro s hs
  rw [compliance_of_of_nodup gw stocks now s h hs,
    batch_result_for_spec gw stocks now s h hs]

/-- Witness for C1 (amended) at the BMW example with a concrete
gateway: both `BMW.DE` and `BMW.F` receive the one shared status of
base `"BMW"`, whose `normalized_from` is BMW.F's normalization (the
last sharer), also for the `BMW.DE` entry. -/
theorem C1_batch_keyed_by_original_ticker_witness :
    (bmwStocks.map StockData.ticker).Nodup ∧
    (batch_base_symbols bmwStocks 0 =
      bmwStocks.map (fun s =>
        (normalize_for_compliance s.ticker s.exchange "yfinance" 0).base_symbol) ∧
    ∀ s ∈ bmwStocks,
      compliance_of bmwGateway bmwStocks 0 s =
        some (match alGet (bmwGateway (batch_base_symbols bmwStocks 0))
            (normalize_for_compliance s.ticker s.exchange "yfinance" 0).base_symbol with
          | some st =>
              { st with normalized_from := (
                  last_sharer_normalization
                    (fun x => normalize_for_compliance x.ticker x.exchange "yfinance" 0)
                    bmwStocks
                    (normalize_for_compliance s.ticker s.exchange "yfinance" 0).base_symbol) }
          | none => error_status s.ticker)) :=
  ⟨by decide, C1_batch_keyed_by_original_ticker bmwGateway bmwStocks 0 (by decide)⟩

end StockFriend
